import Mathlib

/-!
Verification of the line-timestamp tracking plugin (`src/main.ts` and the
duplicated copy `src/src/main.ts`) against its natural-language specification.

The development shallowly embeds the store operations of the plugin:
  * the persisted metadata value (`Metadata`): a mapping from file path to a
    mapping from line number to an ISO timestamp string, exactly the
    `Timestamps` type of the source;
  * the serialization used by the source, `JSON.stringify(metadata, null, 2)`,
    and the matching `JSON.parse`, specialized to the `Timestamps` shape
    (`stringifyMetadata` / `parseMetadata`);
  * the vault adapter consumed by the plugin (`Vault`, `adapterRead`,
    `adapterWrite`, `vaultCreate`), with flags for a readable and a writable
    backing medium;
  * the plugin operations `loadMetadata`, `saveMetadata`,
    `updateLineTimestamp`, `overlayTimestamps` and `handleEditorChange`,
    transcribed from `src/main.ts`, and the duplicated copies from
    `src/src/main.ts` in namespace `SrcMain`.
-/

/-- The `Timestamps` type of the source: file path, then line number, then ISO
timestamp string.  JavaScript objects enumerate integer-like keys in ascending
numeric order and other string keys in insertion order, so the inner map is a
list of `(lineNumber, timestamp)` pairs kept ascending and the outer map is a
list of `(filePath, innerMap)` pairs in insertion order. -/
abbrev Metadata : Type := List (String × List (Nat × String))

/-- First-match association lookup of a file path in the metadata, modelling
the JavaScript member access `metadata[filePath]`. -/
def lookupMeta : Metadata → String → Option (List (Nat × String))
  | [], _ => none
  | (q, inner) :: rest, p => if q = p then some inner else lookupMeta rest p

/-- Association lookup of a line number in an inner map, modelling the
JavaScript member access `inner[lineNumber]`. -/
def lookupLine : List (Nat × String) → Nat → Option String
  | [], _ => none
  | (k, v) :: rest, n => if k = n then some v else lookupLine rest n

/-- Assignment `inner[lineNumber.toString()] = timestamp` on a JavaScript
object: integer-like keys are kept in ascending numeric order, an existing key
is overwritten in place. -/
def setLine : List (Nat × String) → Nat → String → List (Nat × String)
  | [], n, t => [(n, t)]
  | (k, v) :: rest, n, t =>
    if n < k then (n, t) :: (k, v) :: rest
    else if n = k then (n, t) :: rest
    else (k, v) :: setLine rest n t

/-- The mutation performed by `updateLineTimestamp` on the loaded metadata
object: `if (!metadata[filePath]) metadata[filePath] = ⟨empty object⟩` followed
by `metadata[filePath][lineNumber.toString()] = timestamp`.  A fresh outer key
is appended in insertion order, as a JavaScript object does. -/
def updateEntry : Metadata → String → Nat → String → Metadata
  | [], p, n, t => [(p, setLine [] n t)]
  | (q, inner) :: rest, p, n, t =>
    if q = p then (q, setLine inner n t) :: rest
    else (q, inner) :: updateEntry rest p n t

/-!
### Serialization: `JSON.stringify(metadata, null, 2)`

The source persists the metadata with `JSON.stringify(metadata, null, 2)`.
The printer below reproduces that output, character for character, for values
of the `Timestamps` shape: two-space indentation per nesting level, keys in
object enumeration order, and the standard JSON string escapes (`\"`, `\\`,
`\b`, `\t`, `\n`, `\f`, `\r`, and `\u00XX` for the remaining control
characters, with lowercase hexadecimal digits).
-/

/-- Lowercase hexadecimal digit character for `n < 16`. -/
def hexDigitChar (n : Nat) : Char :=
  if n < 10 then Char.ofNat (48 + n) else Char.ofNat (87 + n)

/-- JSON escape of one character, as emitted by `JSON.stringify`. -/
def escapeChar (c : Char) : List Char :=
  if c = '"' then ['\\', '"']
  else if c = '\\' then ['\\', '\\']
  else if c = '\x08' then ['\\', 'b']
  else if c = '\t' then ['\\', 't']
  else if c = '\n' then ['\\', 'n']
  else if c = '\x0c' then ['\\', 'f']
  else if c = '\r' then ['\\', 'r']
  else if c.toNat < 32 then
    ['\\', 'u', '0', '0', hexDigitChar (c.toNat / 16), hexDigitChar (c.toNat % 16)]
  else [c]

/-- JSON escape of a character list. -/
def escapeList : List Char → List Char
  | [] => []
  | c :: cs => escapeChar c ++ escapeList cs

/-- A JSON string literal: quote, escaped body, quote. -/
def quoteChars (s : List Char) : List Char :=
  '"' :: (escapeList s ++ ['"'])

/-- Decimal digit characters of `n`, most significant first; structural on a
fuel argument so that it reduces inside the kernel. -/
def natDigitsAux : Nat → Nat → List Char
  | 0, _ => []
  | fuel + 1, n =>
    if n < 10 then [Char.ofNat (48 + n)]
    else natDigitsAux fuel (n / 10) ++ [Char.ofNat (48 + n % 10)]

/-- Decimal digit characters of `n`, the output of `Number.prototype.toString`
for a line number. -/
def natDigits (n : Nat) : List Char := natDigitsAux (n + 1) n

/-- Join of pieces with a separator, as `Array.prototype.join` produces. -/
def sepJoin (sep : List Char) : List (List Char) → List Char
  | [] => []
  | [x] => x
  | x :: y :: rest => x ++ sep ++ sepJoin sep (y :: rest)

/-- One inner entry of the serialized form: four spaces of indentation, the
quoted decimal line-number key, a colon, a space, and the quoted timestamp. -/
def innerEntryChars (e : Nat × String) : List Char :=
  [' ', ' ', ' ', ' '] ++ quoteChars (natDigits e.1) ++ [':', ' '] ++ quoteChars e.2.data

/-- Serialized inner object of one document, at nesting depth one. -/
def innerChars : List (Nat × String) → List Char
  | [] => ['{', '}']
  | e :: rest =>
    ['{', '\n'] ++ sepJoin [',', '\n'] ((e :: rest).map innerEntryChars)
      ++ ['\n', ' ', ' ', '}']

/-- One outer entry of the serialized form: two spaces of indentation, the
quoted file path, a colon, a space, and the inner object. -/
def outerEntryChars (e : String × List (Nat × String)) : List Char :=
  [' ', ' '] ++ quoteChars e.1.data ++ [':', ' '] ++ innerChars e.2

/-- Characters of `JSON.stringify(m, null, 2)` for a `Timestamps` value. -/
def metadataChars : Metadata → List Char
  | [] => ['{', '}']
  | e :: rest =>
    ['{', '\n'] ++ sepJoin [',', '\n'] ((e :: rest).map outerEntryChars) ++ ['\n', '}']

/-- The persisted file content `JSON.stringify(metadata, null, 2)`. -/
def stringifyMetadata (m : Metadata) : String := String.mk (metadataChars m)

/-!
### Deserialization: `JSON.parse` specialized to the `Timestamps` shape

The source reads the persisted file back with `JSON.parse` and uses the result
as a `Timestamps` value without validation.  The parser below accepts the
JSON grammar restricted to that shape (an object whose values are objects of
string members, with the standard string escapes) and is whitespace tolerant;
on any other input it returns `none`, the model of a `JSON.parse` failure.
-/

/-- Whitespace as skipped by the JSON grammar. -/
def isWsChar (c : Char) : Bool :=
  c = ' ' || c = '\n' || c = '\t' || c = '\r'

/-- Drop leading whitespace. -/
def skipWs : List Char → List Char
  | [] => []
  | c :: cs => if isWsChar c then skipWs cs else c :: cs

/-- Value of one hexadecimal digit character. -/
def hexVal (c : Char) : Option Nat :=
  if 48 ≤ c.toNat ∧ c.toNat ≤ 57 then some (c.toNat - 48)
  else if 97 ≤ c.toNat ∧ c.toNat ≤ 102 then some (c.toNat - 87)
  else if 65 ≤ c.toNat ∧ c.toNat ≤ 70 then some (c.toNat - 55)
  else none

/-- Inverse of the two-character JSON escapes. -/
def unescapeChar : Char → Option Char
  | '"' => some '"'
  | '\\' => some '\\'
  | '/' => some '/'
  | 'b' => some '\x08'
  | 't' => some '\t'
  | 'n' => some '\n'
  | 'f' => some '\x0c'
  | 'r' => some '\r'
  | _ => none

/-- Parse the body of a JSON string literal, after the opening quote, up to
and including the closing quote; returns the unescaped body and the rest. -/
def parseStringBody : List Char → Option (List Char × List Char)
  | [] => none
  | c :: cs =>
    if c = '"' then some ([], cs)
    else if c = '\\' then
      match cs with
      | [] => none
      | e :: cs2 =>
        if e = 'u' then
          match cs2 with
          | h1 :: h2 :: h3 :: h4 :: cs3 =>
            match hexVal h1, hexVal h2, hexVal h3, hexVal h4 with
            | some a, some b, some c2, some d =>
              (parseStringBody cs3).map
                (fun r => (Char.ofNat (((a * 16 + b) * 16 + c2) * 16 + d) :: r.1, r.2))
            | _, _, _, _ => none
          | _ => none
        else
          match unescapeChar e with
          | some ch => (parseStringBody cs2).map (fun r => (ch :: r.1, r.2))
          | none => none
    else (parseStringBody cs).map (fun r => (c :: r.1, r.2))

/-- Value of one decimal digit character. -/
def digitVal (c : Char) : Option Nat :=
  if 48 ≤ c.toNat ∧ c.toNat ≤ 57 then some (c.toNat - 48) else none

/-- Accumulating decimal read of a digit character list. -/
def charsToNatAux : Nat → List Char → Option Nat
  | acc, [] => some acc
  | acc, c :: cs =>
    match digitVal c with
    | some d => charsToNatAux (acc * 10 + d) cs
    | none => none

/-- Decimal read of a nonempty digit character list, the numeric line-number
key of an inner object. -/
def charsToNat : List Char → Option Nat
  | [] => none
  | c :: cs => charsToNatAux 0 (c :: cs)

/-- Parse one `"lineNumber": "timestamp"` member of an inner object. -/
def parseInnerEntry (s : List Char) : Option ((Nat × String) × List Char) :=
  match skipWs s with
  | '"' :: r1 =>
    match parseStringBody r1 with
    | none => none
    | some (key, r2) =>
      match charsToNat key with
      | none => none
      | some n =>
        match skipWs r2 with
        | ':' :: r3 =>
          match skipWs r3 with
          | '"' :: r4 =>
            match parseStringBody r4 with
            | none => none
            | some (val, r5) => some ((n, String.mk val), r5)
          | _ => none
        | _ => none
  | _ => none

/-- Parse the members of a nonempty inner object, after the opening brace, up
to and including the closing brace; structural on a fuel argument. -/
def parseInnerPairs : Nat → List Char → Option (List (Nat × String) × List Char)
  | 0, _ => none
  | fuel + 1, s =>
    match parseInnerEntry s with
    | none => none
    | some (e, r1) =>
      match skipWs r1 with
      | ',' :: r2 =>
        match parseInnerPairs fuel r2 with
        | none => none
        | some (es, r3) => some (e :: es, r3)
      | '}' :: r2 => some ([e], r2)
      | _ => none

/-- Parse one inner object, braces included. -/
def parseInnerObj (fuel : Nat) (s : List Char) : Option (List (Nat × String) × List Char) :=
  match skipWs s with
  | '{' :: r1 =>
    match skipWs r1 with
    | '}' :: r2 => some ([], r2)
    | _ => parseInnerPairs fuel r1
  | _ => none

/-- Parse one `"filePath": innerObject` member of the outer object. -/
def parseOuterEntry (fuel : Nat) (s : List Char) :
    Option ((String × List (Nat × String)) × List Char) :=
  match skipWs s with
  | '"' :: r1 =>
    match parseStringBody r1 with
    | none => none
    | some (key, r2) =>
      match skipWs r2 with
      | ':' :: r3 =>
        match parseInnerObj fuel r3 with
        | none => none
        | some (inner, r4) => some ((String.mk key, inner), r4)
      | _ => none
  | _ => none

/-- Parse the members of a nonempty outer object, after the opening brace, up
to and including the closing brace; structural on a fuel argument. -/
def parseOuterPairs : Nat → List Char → Option (Metadata × List Char)
  | 0, _ => none
  | fuel + 1, s =>
    match parseOuterEntry fuel s with
    | none => none
    | some (e, r1) =>
      match skipWs r1 with
      | ',' :: r2 =>
        match parseOuterPairs fuel r2 with
        | none => none
        | some (es, r3) => some (e :: es, r3)
      | '}' :: r2 => some ([e], r2)
      | _ => none

/-- Parse the outer object, braces included. -/
def parseOuterObj (fuel : Nat) (s : List Char) : Option (Metadata × List Char) :=
  match skipWs s with
  | '{' :: r1 =>
    match skipWs r1 with
    | '}' :: r2 => some ([], r2)
    | _ => parseOuterPairs fuel r1
  | _ => none

/-- Characters of a persisted file, read back as a `Timestamps` value;
trailing content other than whitespace is rejected, as `JSON.parse` does. -/
def parseMetadataChars (s : List Char) : Option Metadata :=
  match parseOuterObj (s.length + 1) s with
  | some (m, rest) => if skipWs rest = [] then some m else none
  | none => none

/-- The model of `JSON.parse` applied to a persisted `Timestamps` file. -/
def parseMetadata (s : String) : Option Metadata := parseMetadataChars s.data

/-!
### Round-trip lemmas: the parser inverts the printer

The chain below establishes `parseMetadata (stringifyMetadata m) = some m`,
character class by character class: escapes, string literals, decimal keys,
members, objects.
-/

theorem skipWs_ws (c : Char) (h : isWsChar c = true) (t : List Char) :
    skipWs (c :: t) = skipWs t := by
  simp [skipWs, h]

theorem skipWs_not (c : Char) (h : isWsChar c = false) (t : List Char) :
    skipWs (c :: t) = c :: t := by
  simp [skipWs, h]

theorem hexVal_hexDigitChar (k : Nat) (h : k < 16) : hexVal (hexDigitChar k) = some k := by
  interval_cases k <;> decide

/-- Parsing one escaped character prepends exactly that character. -/
theorem parseStringBody_escape (c : Char) (t : List Char) :
    parseStringBody (escapeChar c ++ t)
      = (parseStringBody t).map (fun r => (c :: r.1, r.2)) := by
  by_cases h1 : c = '"'
  · subst h1; rw [escapeChar, if_pos rfl]; rw [parseStringBody.eq_def]; simp [unescapeChar]
  by_cases h2 : c = '\\'
  · subst h2; simp only [escapeChar, if_neg h1, if_pos rfl]
    rw [parseStringBody.eq_def]; simp [unescapeChar]
  by_cases h3 : c = '\x08'
  · subst h3; simp only [escapeChar, if_neg h1, if_neg h2, if_pos rfl]
    rw [parseStringBody.eq_def]; simp [unescapeChar]
  by_cases h4 : c = '\t'
  · subst h4; simp only [escapeChar, if_neg h1, if_neg h2, if_neg h3, if_pos rfl]
    rw [parseStringBody.eq_def]; simp [unescapeChar]
  by_cases h5 : c = '\n'
  · subst h5; simp only [escapeChar, if_neg h1, if_neg h2, if_neg h3, if_neg h4, if_pos rfl]
    rw [parseStringBody.eq_def]; simp [unescapeChar]
  by_cases h6 : c = '\x0c'
  · subst h6
    simp only [escapeChar, if_neg h1, if_neg h2, if_neg h3, if_neg h4, if_neg h5, if_pos rfl]
    rw [parseStringBody.eq_def]; simp [unescapeChar]
  by_cases h7 : c = '\r'
  · subst h7
    simp only [escapeChar, if_neg h1, if_neg h2, if_neg h3, if_neg h4, if_neg h5, if_neg h6,
      if_pos rfl]
    rw [parseStringBody.eq_def]; simp [unescapeChar]
  by_cases h8 : c.toNat < 32
  · have hdiv : c.toNat / 16 < 16 := by omega
    have hmod : c.toNat % 16 < 16 := by omega
    simp only [escapeChar, if_neg h1, if_neg h2, if_neg h3, if_neg h4, if_neg h5,
      if_neg h6, if_neg h7, if_pos h8, List.cons_append, List.nil_append]
    rw [parseStringBody.eq_def]
    simp only [reduceIte]
    rw [show hexVal '0' = some 0 from by decide,
      hexVal_hexDigitChar _ hdiv, hexVal_hexDigitChar _ hmod]
    have ha1 : ((0 * 16 + 0) * 16 + c.toNat / 16) * 16 + c.toNat % 16 = c.toNat := by omega
    have ha2 : c.toNat / 16 * 16 + c.toNat % 16 = c.toNat := by omega
    simp [ha1, ha2, Char.ofNat_toNat]
  · simp only [escapeChar, if_neg h1, if_neg h2, if_neg h3, if_neg h4, if_neg h5,
      if_neg h6, if_neg h7, if_neg h8, List.cons_append, List.nil_append]
    rw [parseStringBody.eq_def]
    simp [h1, h2]

/-- Parsing an escaped body stops exactly at the closing quote. -/
theorem parseStringBody_escapeList (s : List Char) : ∀ t : List Char,
    parseStringBody (escapeList s ++ '"' :: t) = some (s, t) := by
  induction s with
  | nil =>
    intro t
    rw [escapeList, List.nil_append, parseStringBody.eq_def]
    simp
  | cons c cs ih =>
    intro t
    rw [escapeList, List.append_assoc, parseStringBody_escape, ih]
    rfl

/-- A quoted string literal followed by anything parses back to its body. -/
theorem quoteChars_append (s t : List Char) :
    quoteChars s ++ t = '"' :: (escapeList s ++ '"' :: t) := by
  simp [quoteChars]

theorem natDigitsAux_fuel (f1 : Nat) : ∀ f2 n : Nat, n < f1 → n < f2 →
    natDigitsAux f1 n = natDigitsAux f2 n := by
  induction f1 with
  | zero => intro f2 n h1 _; omega
  | succ f1 ih =>
    intro f2 n h1 h2
    match f2 with
    | 0 => omega
    | f2 + 1 =>
      by_cases h10 : n < 10
      · simp [natDigitsAux, h10]
      · have hd : n / 10 < n := Nat.div_lt_self (by omega) (by omega)
        simp only [natDigitsAux, if_neg h10]
        rw [ih f2 (n / 10) (by omega) (by omega)]

/-- Unfolding of `natDigits` in least-significant-digit-last form. -/
theorem natDigits_unfold (n : Nat) :
    natDigits n = (if n < 10 then [] else natDigits (n / 10)) ++ [Char.ofNat (48 + n % 10)] := by
  have hbase : natDigits n
      = if n < 10 then [Char.ofNat (48 + n)]
        else natDigitsAux n (n / 10) ++ [Char.ofNat (48 + n % 10)] := rfl
  by_cases h10 : n < 10
  · rw [hbase, if_pos h10, if_pos h10, Nat.mod_eq_of_lt h10]
    rfl
  · have hd : n / 10 < n := Nat.div_lt_self (by omega) (by omega)
    rw [hbase, if_neg h10, if_neg h10,
      natDigitsAux_fuel n (n / 10 + 1) (n / 10) (by omega) (by omega)]
    rfl

theorem natDigits_ne_nil (n : Nat) : natDigits n ≠ [] := by
  rw [natDigits_unfold]
  simp

theorem digitVal_digit (d : Nat) (h : d < 10) : digitVal (Char.ofNat (48 + d)) = some d := by
  interval_cases d <;> decide

theorem charsToNatAux_nil (acc : Nat) : charsToNatAux acc [] = some acc := rfl

theorem charsToNatAux_cons (acc : Nat) (c : Char) (cs : List Char) (d : Nat)
    (h : digitVal c = some d) :
    charsToNatAux acc (c :: cs) = charsToNatAux (acc * 10 + d) cs := by
  rw [charsToNatAux.eq_def]
  simp [h]

theorem charsToNatAux_append (xs : List Char) : ∀ (acc : Nat) (ys : List Char),
    charsToNatAux acc (xs ++ ys)
      = (charsToNatAux acc xs).bind (fun a => charsToNatAux a ys) := by
  induction xs with
  | nil => intro acc ys; simp [charsToNatAux]
  | cons c cs ih =>
    intro acc ys
    rw [List.cons_append, charsToNatAux.eq_def, charsToNatAux.eq_def]
    cases hc : digitVal c with
    | some d => simp [hc, ih]
    | none => simp [hc]

theorem charsToNatAux_natDigits (n : Nat) : ∀ acc : Nat,
    charsToNatAux acc (natDigits n)
      = some (acc * 10 ^ (natDigits n).length + n) := by
  induction n using Nat.strongRecOn with
  | _ n ih =>
    intro acc
    rw [natDigits_unfold]
    by_cases h10 : n < 10
    · simp only [if_pos h10, List.nil_append, List.length_cons, List.length_nil]
      rw [charsToNatAux_cons acc _ [] (n % 10) (digitVal_digit (n % 10) (by omega)),
        charsToNatAux_nil, Nat.mod_eq_of_lt h10]
      simp
    · have hd : n / 10 < n := Nat.div_lt_self (by omega) (by omega)
      simp only [if_neg h10, charsToNatAux_append, ih (n / 10) hd acc, Option.some_bind,
        List.length_append, List.length_cons, List.length_nil]
      rw [charsToNatAux_cons _ _ [] (n % 10) (digitVal_digit (n % 10) (by omega)),
        charsToNatAux_nil]
      congr 1
      have h2 : n / 10 * 10 + n % 10 = n := by omega
      calc (acc * 10 ^ (natDigits (n / 10)).length + n / 10) * 10 + n % 10
          = acc * (10 ^ (natDigits (n / 10)).length * 10) + (n / 10 * 10 + n % 10) := by
            ring
        _ = acc * 10 ^ ((natDigits (n / 10)).length + 1) + n := by
            rw [h2, pow_succ]

/-- The decimal key printed for a line number reads back as that number. -/
theorem charsToNat_natDigits (n : Nat) : charsToNat (natDigits n) = some n := by
  rcases h : natDigits n with _ | ⟨c, cs⟩
  · exact absurd h (natDigits_ne_nil n)
  · rw [charsToNat, ← h, charsToNatAux_natDigits n 0]
    simp

theorem mkData (s : String) : String.mk s.data = s := rfl

theorem parseInnerEntry_ws (c : Char) (h : isWsChar c = true) (s : List Char) :
    parseInnerEntry (c :: s) = parseInnerEntry s := by
  simp only [parseInnerEntry, skipWs_ws c h s]

theorem parseOuterEntry_ws (fuel : Nat) (c : Char) (h : isWsChar c = true) (s : List Char) :
    parseOuterEntry fuel (c :: s) = parseOuterEntry fuel s := by
  simp only [parseOuterEntry, skipWs_ws c h s]

/-- Parsing one printed inner member recovers it. -/
theorem parseInnerEntry_print (n : Nat) (v : String) (t : List Char) :
    parseInnerEntry (innerEntryChars (n, v) ++ t) = some ((n, v), t) := by
  have hshape : innerEntryChars (n, v) ++ t
      = ' ' :: ' ' :: ' ' :: ' ' :: ('"' :: (escapeList (natDigits n)
          ++ '"' :: (':' :: (' ' :: ('"' :: (escapeList v.data ++ '"' :: t)))))) := by
    simp [innerEntryChars, quoteChars]
  rw [hshape, parseInnerEntry_ws _ (by decide), parseInnerEntry_ws _ (by decide),
    parseInnerEntry_ws _ (by decide), parseInnerEntry_ws _ (by decide)]
  simp only [parseInnerEntry, skipWs_not '"' (by decide), parseStringBody_escapeList,
    charsToNat_natDigits, skipWs_not ':' (by decide), skipWs_ws ' ' (by decide),
    skipWs_not '"' (by decide), mkData]

/-- Parsing the printed members of a nonempty inner object recovers them. -/
theorem parseInnerPairs_print (l : List (Nat × String)) : ∀ (fuel : Nat) (t : List Char),
    l ≠ [] → l.length ≤ fuel →
    parseInnerPairs fuel ('\n' :: (sepJoin [',', '\n'] (l.map innerEntryChars)
      ++ '\n' :: ' ' :: ' ' :: '}' :: t)) = some (l, t) := by
  induction l with
  | nil => intro fuel t hne _; exact absurd rfl hne
  | cons e l ih =>
    intro fuel t _ hfuel
    obtain ⟨n, v⟩ := e
    cases fuel with
    | zero => simp at hfuel
    | succ fuel =>
      cases l with
      | nil =>
        simp only [List.map_cons, List.map_nil, sepJoin]
        rw [parseInnerPairs, parseInnerEntry_ws '\n' (by decide), parseInnerEntry_print]
        simp only [skipWs_ws '\n' (by decide), skipWs_ws ' ' (by decide),
          skipWs_not '}' (by decide)]
      | cons e2 l2 =>
        have hsep : sepJoin [',', '\n'] (((n, v) :: e2 :: l2).map innerEntryChars)
            = innerEntryChars (n, v)
              ++ (',' :: ('\n' :: sepJoin [',', '\n'] ((e2 :: l2).map innerEntryChars))) := by
          simp [sepJoin]
        rw [hsep, parseInnerPairs, parseInnerEntry_ws '\n' (by decide)]
        have hassoc : innerEntryChars (n, v)
              ++ (',' :: ('\n' :: sepJoin [',', '\n'] ((e2 :: l2).map innerEntryChars)))
              ++ '\n' :: ' ' :: ' ' :: '}' :: t
            = innerEntryChars (n, v)
              ++ (',' :: ('\n' :: (sepJoin [',', '\n'] ((e2 :: l2).map innerEntryChars)
                  ++ '\n' :: ' ' :: ' ' :: '}' :: t))) := by
          simp
        rw [hassoc, parseInnerEntry_print]
        simp only [skipWs_not ',' (by decide)]
        rw [ih fuel t (by simp) (by simp only [List.length_cons] at hfuel ⊢; omega)]

theorem sepJoin_cons_exists (sep x : List Char) (xs : List (List Char)) :
    ∃ z, sepJoin sep (x :: xs) = x ++ z := by
  cases xs with
  | nil => exact ⟨[], by simp [sepJoin]⟩
  | cons y ys => exact ⟨sep ++ sepJoin sep (y :: ys), by simp [sepJoin]⟩

/-- Parsing a printed inner object recovers it. -/
theorem parseInnerObj_print (l : List (Nat × String)) (fuel : Nat) (t : List Char)
    (hfuel : l.length ≤ fuel) :
    parseInnerObj fuel (innerChars l ++ t) = some (l, t) := by
  cases l with
  | nil =>
    simp only [innerChars, List.cons_append, List.nil_append, parseInnerObj,
      skipWs_not '{' (by decide), skipWs_not '}' (by decide)]
  | cons e rest =>
    obtain ⟨n, v⟩ := e
    have hshape : innerChars ((n, v) :: rest) ++ t
        = '{' :: ('\n' :: (sepJoin [',', '\n'] (((n, v) :: rest).map innerEntryChars)
            ++ '\n' :: ' ' :: ' ' :: '}' :: t)) := by
      simp [innerChars]
    obtain ⟨z, hz⟩ := sepJoin_cons_exists [',', '\n'] (innerEntryChars (n, v))
      (rest.map innerEntryChars)
    have hentry : innerEntryChars (n, v)
        = ' ' :: ' ' :: ' ' :: ' ' :: ('"' :: (escapeList (natDigits n)
            ++ '"' :: (':' :: (' ' :: quoteChars v.data)))) := by
      simp [innerEntryChars, quoteChars]
    have hskip : skipWs ('\n' :: (sepJoin [',', '\n'] (((n, v) :: rest).map innerEntryChars)
        ++ '\n' :: ' ' :: ' ' :: '}' :: t))
        = '"' :: ((escapeList (natDigits n) ++ '"' :: (':' :: (' ' :: quoteChars v.data)))
            ++ (z ++ '\n' :: ' ' :: ' ' :: '}' :: t)) := by
      rw [List.map_cons, hz, hentry]
      simp only [List.cons_append, List.append_assoc]
      rw [skipWs_ws '\n' (by decide), skipWs_ws ' ' (by decide), skipWs_ws ' ' (by decide),
        skipWs_ws ' ' (by decide), skipWs_ws ' ' (by decide), skipWs_not '"' (by decide)]
    rw [hshape]
    simp only [parseInnerObj, skipWs_not '{' (by decide)]
    rw [hskip]
    split
    · rename_i heq
      simp at heq
    · exact parseInnerPairs_print ((n, v) :: rest) fuel t (by simp) hfuel

theorem parseInnerObj_ws (fuel : Nat) (c : Char) (h : isWsChar c = true) (s : List Char) :
    parseInnerObj fuel (c :: s) = parseInnerObj fuel s := by
  simp only [parseInnerObj, skipWs_ws c h s]

/-- Parsing one printed outer member recovers it. -/
theorem parseOuterEntry_print (p : String) (inner : List (Nat × String)) (fuel : Nat)
    (t : List Char) (hfuel : inner.length ≤ fuel) :
    parseOuterEntry fuel (outerEntryChars (p, inner) ++ t) = some ((p, inner), t) := by
  have hshape : outerEntryChars (p, inner) ++ t
      = ' ' :: ' ' :: ('"' :: (escapeList p.data
          ++ '"' :: (':' :: (' ' :: (innerChars inner ++ t))))) := by
    simp [outerEntryChars, quoteChars]
  rw [hshape, parseOuterEntry_ws fuel _ (by decide), parseOuterEntry_ws fuel _ (by decide)]
  simp only [parseOuterEntry, skipWs_not '"' (by decide), parseStringBody_escapeList,
    skipWs_not ':' (by decide), parseInnerObj_ws fuel ' ' (by decide),
    parseInnerObj_print inner fuel t hfuel, mkData]

/-- Parsing the printed members of a nonempty outer object recovers them. -/
theorem parseOuterPairs_print (l : Metadata) : ∀ (fuel : Nat) (t : List Char),
    l ≠ [] → l.length ≤ fuel → (∀ e ∈ l, e.2.length + l.length ≤ fuel) →
    parseOuterPairs fuel ('\n' :: (sepJoin [',', '\n'] (l.map outerEntryChars)
      ++ '\n' :: '}' :: t)) = some (l, t) := by
  induction l with
  | nil => intro fuel t hne _ _; exact absurd rfl hne
  | cons e l ih =>
    intro fuel t _ hfuel hinner
    obtain ⟨p, inner⟩ := e
    cases fuel with
    | zero => simp at hfuel
    | succ fuel =>
      have hinner0 : inner.length ≤ fuel := by
        have := hinner (p, inner) (by simp)
        simp only [List.length_cons] at this
        omega
      cases l with
      | nil =>
        simp only [List.map_cons, List.map_nil, sepJoin]
        rw [parseOuterPairs, parseOuterEntry_ws fuel '\n' (by decide),
          parseOuterEntry_print p inner fuel _ hinner0]
        simp only [skipWs_ws '\n' (by decide), skipWs_not '}' (by decide)]
      | cons e2 l2 =>
        have hsep : sepJoin [',', '\n'] (((p, inner) :: e2 :: l2).map outerEntryChars)
            = outerEntryChars (p, inner)
              ++ (',' :: ('\n' :: sepJoin [',', '\n'] ((e2 :: l2).map outerEntryChars))) := by
          simp [sepJoin]
        rw [hsep, parseOuterPairs, parseOuterEntry_ws fuel '\n' (by decide)]
        have hassoc : outerEntryChars (p, inner)
              ++ (',' :: ('\n' :: sepJoin [',', '\n'] ((e2 :: l2).map outerEntryChars)))
              ++ '\n' :: '}' :: t
            = outerEntryChars (p, inner)
              ++ (',' :: ('\n' :: (sepJoin [',', '\n'] ((e2 :: l2).map outerEntryChars)
                  ++ '\n' :: '}' :: t))) := by
          simp
        rw [hassoc, parseOuterEntry_print p inner fuel _ hinner0]
        simp only [skipWs_not ',' (by decide)]
        rw [ih fuel t (by simp) (by simp only [List.length_cons] at hfuel ⊢; omega)
          (by
            intro a ha
            have := hinner a (by simp [ha])
            simp only [List.length_cons] at this ⊢
            omega)]

/-- Parsing a printed outer object recovers it. -/
theorem parseOuterObj_print (m : Metadata) (fuel : Nat) (t : List Char)
    (h1 : m.length ≤ fuel) (h2 : ∀ e ∈ m, e.2.length + m.length ≤ fuel) :
    parseOuterObj fuel (metadataChars m ++ t) = some (m, t) := by
  cases m with
  | nil =>
    simp only [metadataChars, List.cons_append, List.nil_append, parseOuterObj,
      skipWs_not '{' (by decide), skipWs_not '}' (by decide)]
  | cons e rest =>
    obtain ⟨p, inner⟩ := e
    have hshape : metadataChars ((p, inner) :: rest) ++ t
        = '{' :: ('\n' :: (sepJoin [',', '\n'] (((p, inner) :: rest).map outerEntryChars)
            ++ '\n' :: '}' :: t)) := by
      simp [metadataChars]
    obtain ⟨z, hz⟩ := sepJoin_cons_exists [',', '\n'] (outerEntryChars (p, inner))
      (rest.map outerEntryChars)
    have hentry : outerEntryChars (p, inner)
        = ' ' :: ' ' :: ('"' :: (escapeList p.data
            ++ '"' :: (':' :: (' ' :: innerChars inner)))) := by
      simp [outerEntryChars, quoteChars]
    have hskip : skipWs ('\n' :: (sepJoin [',', '\n'] (((p, inner) :: rest).map outerEntryChars)
        ++ '\n' :: '}' :: t))
        = '"' :: ((escapeList p.data ++ '"' :: (':' :: (' ' :: innerChars inner)))
            ++ (z ++ '\n' :: '}' :: t)) := by
      rw [List.map_cons, hz, hentry]
      simp only [List.cons_append, List.append_assoc]
      rw [skipWs_ws '\n' (by decide), skipWs_ws ' ' (by decide), skipWs_ws ' ' (by decide),
        skipWs_not '"' (by decide)]
    rw [hshape]
    simp only [parseOuterObj, skipWs_not '{' (by decide)]
    rw [hskip]
    split
    · rename_i heq
      simp at heq
    · exact parseOuterPairs_print ((p, inner) :: rest) fuel t (by simp) h1 h2

theorem sepJoin_length_ge (sep : List Char) (parts : List (List Char)) :
    (∀ x ∈ parts, 1 ≤ x.length) → parts.length ≤ (sepJoin sep parts).length := by
  induction parts with
  | nil => intro _; simp [sepJoin]
  | cons x xs ih =>
    intro h
    cases xs with
    | nil => simpa [sepJoin] using h x (by simp)
    | cons y ys =>
      have hx := h x (by simp)
      have ht := ih (fun a ha => h a (by simp [ha]))
      simp only [sepJoin, List.length_append, List.length_cons] at ht ⊢
      omega

theorem sepJoin_member_length (sep : List Char) (hsep : 1 ≤ sep.length)
    (parts : List (List Char)) :
    (∀ x ∈ parts, 1 ≤ x.length) → ∀ x ∈ parts,
      x.length + parts.length ≤ (sepJoin sep parts).length + 1 := by
  induction parts with
  | nil => intro _ x hx; simp at hx
  | cons a xs ih =>
    intro h x hx
    cases xs with
    | nil =>
      have hxa : x = a := by simpa using hx
      subst hxa
      simp [sepJoin]
    | cons y ys =>
      have hsj := sepJoin_length_ge sep (y :: ys) (fun b hb => h b (by simp [hb]))
      have ha := h a (by simp)
      rcases List.mem_cons.mp hx with rfl | hx2
      · simp only [sepJoin, List.length_append, List.length_cons] at hsj ⊢
        omega
      · have hih := ih (fun b hb => h b (by simp [hb])) x hx2
        simp only [sepJoin, List.length_append, List.length_cons] at hih ⊢
        omega

theorem innerEntryChars_length_pos (e : Nat × String) : 1 ≤ (innerEntryChars e).length := by
  simp [innerEntryChars]

theorem outerEntryChars_length_pos (e : String × List (Nat × String)) :
    1 ≤ (outerEntryChars e).length := by
  simp [outerEntryChars]

theorem innerChars_length_ge (l : List (Nat × String)) : l.length ≤ (innerChars l).length := by
  cases l with
  | nil => simp [innerChars]
  | cons e rest =>
    have hsj := sepJoin_length_ge [',', '\n'] ((e :: rest).map innerEntryChars)
      (by
        intro x hx
        obtain ⟨a, _, rfl⟩ := List.mem_map.mp hx
        exact innerEntryChars_length_pos a)
    simp only [List.length_map, List.length_cons] at hsj
    simp only [innerChars, List.length_append, List.length_cons]
    omega

theorem outerEntryChars_inner_le (e : String × List (Nat × String)) :
    e.2.length ≤ (outerEntryChars e).length := by
  have h := innerChars_length_ge e.2
  simp only [outerEntryChars, List.length_append, List.length_cons]
  omega

theorem metadataChars_len_outer (m : Metadata) : m.length ≤ (metadataChars m).length := by
  cases m with
  | nil => simp [metadataChars]
  | cons e rest =>
    have hsj := sepJoin_length_ge [',', '\n'] ((e :: rest).map outerEntryChars)
      (by
        intro x hx
        obtain ⟨a, _, rfl⟩ := List.mem_map.mp hx
        exact outerEntryChars_length_pos a)
    simp only [List.length_map, List.length_cons] at hsj
    simp only [metadataChars, List.length_append, List.length_cons]
    omega

theorem metadataChars_len_entry (m : Metadata) (e : String × List (Nat × String))
    (he : e ∈ m) : e.2.length + m.length ≤ (metadataChars m).length + 1 := by
  cases m with
  | nil => simp at he
  | cons a rest =>
    have hmem : outerEntryChars e ∈ (a :: rest).map outerEntryChars :=
      List.mem_map.mpr ⟨e, he, rfl⟩
    have hbound := sepJoin_member_length [',', '\n'] (by simp)
      ((a :: rest).map outerEntryChars)
      (by
        intro x hx
        obtain ⟨b, _, rfl⟩ := List.mem_map.mp hx
        exact outerEntryChars_length_pos b)
      (outerEntryChars e) hmem
    have hinner := outerEntryChars_inner_le e
    simp only [List.length_map, List.length_cons] at hbound
    simp only [metadataChars, List.length_append, List.length_cons]
    omega

theorem dataMk (l : List Char) : (String.mk l).data = l := rfl

/-- The central round trip: the persisted file written by `saveMetadata` reads
back, through the model of `JSON.parse`, as exactly the metadata value that
was written. -/
theorem parseMetadata_stringify (m : Metadata) :
    parseMetadata (stringifyMetadata m) = some m := by
  rw [parseMetadata, stringifyMetadata, dataMk, parseMetadataChars]
  have hin : metadataChars m = metadataChars m ++ [] := (List.append_nil _).symm
  rw [show parseOuterObj ((metadataChars m).length + 1) (metadataChars m)
      = parseOuterObj ((metadataChars m).length + 1) (metadataChars m ++ []) from by
        rw [← hin],
    parseOuterObj_print m ((metadataChars m).length + 1) []
      (by have := metadataChars_len_outer m; omega)
      (by
        intro e he
        have := metadataChars_len_entry m e he
        omega)]
  simp [skipWs]

/-!
### The vault adapter and the plugin operations of `src/main.ts`
-/

/-- Error kinds surfaced by the embedded vault and JSON primitives:
`storageUnavailable` for an unreadable or unwritable medium, `notFound` for a
read of a file that does not exist, `syntaxError` for a `JSON.parse` failure,
and `typeError` for a property access on `undefined`. -/
inductive JsErr where
  | storageUnavailable
  | notFound
  | syntaxError
  | typeError
deriving DecidableEq

/-- The backing medium consumed by the plugin: the content of
`.timestamps/plugin-data/timestamps.json` (or `none` while the store has not
been created) and availability flags for reading and writing. -/
structure Vault where
  file : Option String
  readOk : Bool
  writeOk : Bool
deriving DecidableEq

/-- Model of `this.app.vault.adapter.read(this.METADATA_FILE)`: rejects when
the medium is unreadable, and also when the file does not yet exist. -/
def adapterRead (v : Vault) : Except JsErr String :=
  if v.readOk then
    match v.file with
    | some c => .ok c
    | none => .error .notFound
  else .error .storageUnavailable

/-- Model of `this.app.vault.create(this.METADATA_FILE, content)`: fails when
the file already exists and when the medium is unwritable. -/
def vaultCreate (v : Vault) (content : String) : Except JsErr Vault :=
  match v.file with
  | some _ => .error .storageUnavailable
  | none =>
    if v.writeOk then .ok { v with file := some content }
    else .error .storageUnavailable

/-- Model of `this.app.vault.adapter.write(this.METADATA_FILE, content)`. -/
def adapterWrite (v : Vault) (content : String) : Except JsErr Vault :=
  if v.writeOk then .ok { v with file := some content }
  else .error .storageUnavailable

/-- Transcription of `loadMetadata` (`src/main.ts` lines 149 to 155): read the
metadata file and `JSON.parse` it; any rejection propagates to the caller. -/
def loadMetadata (v : Vault) : Except JsErr Metadata :=
  match adapterRead v with
  | .error e => .error e
  | .ok s =>
    match parseMetadata s with
    | some m => .ok m
    | none => .error .syntaxError

/-- Transcription of `saveMetadata` (`src/main.ts` lines 164 to 180):
stringify with two-space indentation, try `createFolder` swallowing its
failure (folder creation has no observable effect on the modelled state), try
`create`, and fall back to `adapter.write` when `create` throws. -/
def saveMetadata (v : Vault) (metadata : Metadata) : Except JsErr Vault :=
  let content := stringifyMetadata metadata
  match vaultCreate v content with
  | .ok v2 => .ok v2
  | .error _ => adapterWrite v content

/-- The rendering surface consulted by `overlayTimestamps`: whether an active
markdown view exists, the text of each `cm-line` element of that view, and
the name (not the path) of the active file. -/
structure RenderCtx where
  viewPresent : Bool
  lineTexts : List String
  activeFileName : Option String
deriving DecidableEq

/-- Loop of `overlayTimestamps` over the view lines, starting at index `i`:
the early `return` when there is no active file name, the unguarded member
access `timestamps[fileName][i]` (a `TypeError` when the file name is not a
key of the map), and the `timestamp && lineText` truthiness guard. -/
def overlayLoop (name : Option String) (timestamps : Metadata) :
    List String → Nat → Except JsErr (List (Nat × String))
  | [], _ => .ok []
  | text :: rest, i =>
    match name with
    | none => .ok []
    | some nm =>
      match lookupMeta timestamps nm with
      | none => .error .typeError
      | some inner =>
        match overlayLoop name timestamps rest (i + 1) with
        | .error e => .error e
        | .ok tail =>
          match lookupLine inner i with
          | some ts => if ts ≠ "" ∧ text ≠ "" then .ok ((i, ts) :: tail) else .ok tail
          | none => .ok tail

/-- Transcription of `overlayTimestamps` (`src/main.ts` lines 236 to 293),
restricted to its observable outcome: the list of `(line, timestamp)` overlay
badges added, or the thrown `TypeError`.  The non-null assertion on
`getActiveViewOfType(MarkdownView)` at the call site in `updateLineTimestamp`
surfaces here: without a view the method dereferences `undefined`. -/
def overlayTimestamps (rc : RenderCtx) (timestamps : Metadata) :
    Except JsErr (List (Nat × String)) :=
  if rc.viewPresent then overlayLoop rc.activeFileName timestamps rc.lineTexts 0
  else .error .typeError

/-- Transcription of `updateLineTimestamp` (`src/main.ts` lines 191 to 210):
load the store, default a missing entry map to an empty object, set the line
key, persist, then overlay.  The first component is the vault state left
behind: a write that succeeded stays persisted even when the later overlay
throws, while a failure before the write leaves the vault untouched. -/
def updateLineTimestamp (v : Vault) (rc : RenderCtx) (filePath : String)
    (lineNumber : Nat) (timestamp : String) : Vault × Except JsErr Metadata :=
  match loadMetadata v with
  | .error e => (v, .error e)
  | .ok metadata =>
    let metadata2 := updateEntry metadata filePath lineNumber timestamp
    match saveMetadata v metadata2 with
    | .error e => (v, .error e)
    | .ok v2 =>
      match overlayTimestamps rc metadata2 with
      | .error e => (v2, .error e)
      | .ok _ => (v2, .ok metadata2)

/-- One `editor-change` notification: the path of the active file (if any),
the cursor line, the current time as an ISO string, and the rendering surface
at that moment. -/
structure ChangeEvent where
  activeFile : Option String
  cursorLine : Nat
  now : String
  rc : RenderCtx
deriving DecidableEq

/-- The plugin state carried across events: the vault, the `updatedTimestamp`
debounce flag, and whether the `updateTimer` is running. -/
structure PluginState where
  vault : Vault
  updatedTimestamp : Bool
  timerActive : Bool
deriving DecidableEq

/-- Transcription of `handleEditorChange` (`src/main.ts` lines 212 to 233):
gated on `!this.updatedTimestamp && file`; on a successful update it sets the
flag and starts the two-second timer when none is running.  An exception from
`updateLineTimestamp` propagates and skips both. -/
def handleEditorChange (st : PluginState) (ev : ChangeEvent) :
    PluginState × Except JsErr Unit :=
  match ev.activeFile with
  | none => (st, .ok ())
  | some path =>
    if st.updatedTimestamp then (st, .ok ())
    else
      match updateLineTimestamp st.vault ev.rc path ev.cursorLine ev.now with
      | (v2, .error e) => ({ st with vault := v2 }, .error e)
      | (v2, .ok _) =>
        ({ vault := v2, updatedTimestamp := true, timerActive := true }, .ok ())

/-- The timer callback installed by `handleEditorChange`: after two seconds
it clears the flag and forgets the timer. -/
def timerExpire (st : PluginState) : PluginState :=
  { st with updatedTimestamp := false, timerActive := false }

/-- The debounce interval, in milliseconds, of the `setTimeout` call. -/
def debounceMs : Nat := 2000

/-- Observation on `handleEditorChange`: the number of persisted writes the
event causes (one when the gate passes, the load succeeds and the save
succeeds; zero otherwise).  It mirrors the branch structure of
`handleEditorChange` through `updateLineTimestamp`. -/
def eventWrites (st : PluginState) (ev : ChangeEvent) : Nat :=
  match ev.activeFile with
  | none => 0
  | some path =>
    if st.updatedTimestamp then 0
    else
      match loadMetadata st.vault with
      | .error _ => 0
      | .ok metadata =>
        match saveMetadata st.vault (updateEntry metadata path ev.cursorLine ev.now) with
        | .error _ => 0
        | .ok _ => 1

/-- Fold of `handleEditorChange` over a burst of change events (no timer
expiry in between). -/
def runTrace (st : PluginState) : List ChangeEvent → PluginState
  | [] => st
  | ev :: evs => runTrace (handleEditorChange st ev).1 evs

/-- Total number of persisted writes over a burst of change events. -/
def traceWrites (st : PluginState) : List ChangeEvent → Nat
  | [] => 0
  | ev :: evs => eventWrites st ev + traceWrites (handleEditorChange st ev).1 evs

/-- Whether every event of the burst is processed without a thrown error. -/
def traceOk (st : PluginState) : List ChangeEvent → Bool
  | [] => true
  | ev :: evs =>
    match handleEditorChange st ev with
    | (st2, .ok _) => traceOk st2 evs
    | (_, .error _) => false

/-- Ascending inner keys: the enumeration order a JavaScript object maintains
for integer-like keys. -/
def wfInner : List (Nat × String) → Bool
  | [] => true
  | [_] => true
  | a :: b :: rest => decide (a.1 < b.1) && wfInner (b :: rest)

/-- No duplicate keys. -/
def keysDistinct : List String → Bool
  | [] => true
  | k :: rest => !(rest.contains k) && keysDistinct rest

/-- A valid snapshot: distinct document keys and ascending line keys, the
invariants of any store value produced through JavaScript objects. -/
def wfMetadata (m : Metadata) : Bool :=
  keysDistinct (m.map Prod.fst) && m.all (fun e => wfInner e.2)

/-!
### The duplicated copy in `src/src/main.ts`

The store operations of the `Timestamps` plugin class in `src/src/main.ts`
(lines 96 to 157) are transcribed below verbatim, as the separate definitions
they are in the source.
-/

namespace SrcMain

/-- Transcription of `loadMetadata` from `src/src/main.ts` (lines 96 to 102). -/
def loadMetadata (v : Vault) : Except JsErr Metadata :=
  match adapterRead v with
  | .error e => .error e
  | .ok s =>
    match parseMetadata s with
    | some m => .ok m
    | none => .error .syntaxError

/-- Transcription of `saveMetadata` from `src/src/main.ts` (lines 111 to 127). -/
def saveMetadata (v : Vault) (metadata : Metadata) : Except JsErr Vault :=
  let content := stringifyMetadata metadata
  match vaultCreate v content with
  | .ok v2 => .ok v2
  | .error _ => adapterWrite v content

/-- Transcription of the loop of `overlayTimestamps` from `src/src/main.ts`
(lines 208 to 240). -/
def overlayLoop (name : Option String) (timestamps : Metadata) :
    List String → Nat → Except JsErr (List (Nat × String))
  | [], _ => .ok []
  | text :: rest, i =>
    match name with
    | none => .ok []
    | some nm =>
      match lookupMeta timestamps nm with
      | none => .error .typeError
      | some inner =>
        match overlayLoop name timestamps rest (i + 1) with
        | .error e => .error e
        | .ok tail =>
          match lookupLine inner i with
          | some ts => if ts ≠ "" ∧ text ≠ "" then .ok ((i, ts) :: tail) else .ok tail
          | none => .ok tail

/-- Transcription of `overlayTimestamps` from `src/src/main.ts` (lines 185 to
241). -/
def overlayTimestamps (rc : RenderCtx) (timestamps : Metadata) :
    Except JsErr (List (Nat × String)) :=
  if rc.viewPresent then overlayLoop rc.activeFileName timestamps rc.lineTexts 0
  else .error .typeError

/-- Transcription of `updateLineTimestamp` from `src/src/main.ts` (lines 138
to 157). -/
def updateLineTimestamp (v : Vault) (rc : RenderCtx) (filePath : String)
    (lineNumber : Nat) (timestamp : String) : Vault × Except JsErr Metadata :=
  match loadMetadata v with
  | .error e => (v, .error e)
  | .ok metadata =>
    let metadata2 := updateEntry metadata filePath lineNumber timestamp
    match saveMetadata v metadata2 with
    | .error e => (v, .error e)
    | .ok v2 =>
      match overlayTimestamps rc metadata2 with
      | .error e => (v2, .error e)
      | .ok _ => (v2, .ok metadata2)

end SrcMain

/-!
### The Line Diff Engine of the specification
-/

/-- Edit script operations over the two line sequences, as defined in the
specification: `equal(oldRange, newRange)`, `insert(newRange)`,
`delete(oldRange)` and `replace(oldRange, newRange)`, each range written as a
start index together with its lines. -/
inductive EditOp where
  | equal (oldStart newStart : Nat) (lines : List String)
  | insert (newStart : Nat) (lines : List String)
  | delete (oldStart : Nat) (lines : List String)
  | replace (oldStart newStart : Nat) (oldLines newLines : List String)
deriving DecidableEq

/-- Inserted plus deleted line count of one operation. -/
def editOpCost : EditOp → Nat
  | .equal _ _ _ => 0
  | .insert _ ls => ls.length
  | .delete _ ls => ls.length
  | .replace _ _ ols nls => ols.length + nls.length

/-- Inserted plus deleted line count of a script. -/
def scriptCost (ops : List EditOp) : Nat := (ops.map editOpCost).sum

/-- Prepend one matching line at `(i, j)` to a script, extending a leading
equal run. -/
def pushEqual (i j : Nat) (s : String) : List EditOp → List EditOp
  | .equal _ _ ls :: rest => .equal i j (s :: ls) :: rest
  | ops => .equal i j [s] :: ops

/-- Prepend one deleted line at old index `i`, coalescing with a leading
delete, insert or replace run. -/
def pushDelete (i : Nat) (s : String) : List EditOp → List EditOp
  | .delete _ ls :: rest => .delete i (s :: ls) :: rest
  | .replace _ j ols nls :: rest => .replace i j (s :: ols) nls :: rest
  | .insert j ls :: rest => .replace i j [s] ls :: rest
  | ops => .delete i [s] :: ops

/-- Prepend one inserted line at new index `j`, coalescing with a leading
insert, delete or replace run. -/
def pushInsert (j : Nat) (s : String) : List EditOp → List EditOp
  | .insert _ ls :: rest => .insert j (s :: ls) :: rest
  | .replace i _ ols nls :: rest => .replace i j ols (s :: nls) :: rest
  | .delete i ls :: rest => .replace i j ls [s] :: rest
  | ops => .insert j [s] :: ops

/-- Shortest-edit-script recursion on the two line suffixes, starting at old
index `i` and new index `j`; structural on a fuel argument that the public
entry point instantiates with the total length. -/
def diffFuel : Nat → Nat → Nat → List String → List String → List EditOp
  | 0, _, _, _, _ => []
  | _ + 1, _, _, [], [] => []
  | fuel + 1, i, j, [], b :: bs => pushInsert j b (diffFuel fuel i (j + 1) [] bs)
  | fuel + 1, i, j, a :: as, [] => pushDelete i a (diffFuel fuel (i + 1) j as [])
  | fuel + 1, i, j, a :: as, b :: bs =>
    if a = b then pushEqual i j a (diffFuel fuel (i + 1) (j + 1) as bs)
    else
      let viaDelete := pushDelete i a (diffFuel fuel (i + 1) j as (b :: bs))
      let viaInsert := pushInsert j b (diffFuel fuel i (j + 1) (a :: as) bs)
      if scriptCost viaInsert < scriptCost viaDelete then viaInsert else viaDelete

/-- Modelled from the spec: the Line Diff Engine contract
`computeEditScript(oldLines, newLines) -> EditScript` of section 4.1 is not
implemented anywhere in the repository source; `src/src/main.ts` imports
`diff` from the external `fast-myers-diff` package and never calls it, and no
other diff code exists.  The definition follows the words of the
specification: a minimal edit script of equal, insert, delete and replace
runs over line identity (byte-for-byte string equality, no normalization),
deterministic, preferring the earliest match among equally minimal scripts. -/
def computeEditScript (oldLines newLines : List String) : List EditOp :=
  diffFuel (oldLines.length + newLines.length + 1) 0 0 oldLines newLines

/-!
### Behavioral lemmas about the store operations
-/

/-- Loading from a readable vault holding a serialized snapshot yields it. -/
theorem loadMetadata_valid (v : Vault) (m : Metadata) (hr : v.readOk = true)
    (hf : v.file = some (stringifyMetadata m)) : loadMetadata v = .ok m := by
  simp [loadMetadata, adapterRead, hr, hf, parseMetadata_stringify]

/-- Saving on a writable vault persists the serialized snapshot, whether the
file already exists (`create` throws, `adapter.write` succeeds) or not. -/
theorem saveMetadata_writeOk (v : Vault) (m : Metadata) (hw : v.writeOk = true) :
    saveMetadata v m = .ok { v with file := some (stringifyMetadata m) } := by
  cases hf : v.file with
  | none => simp [saveMetadata, vaultCreate, hf, hw]
  | some c => simp [saveMetadata, vaultCreate, adapterWrite, hf, hw]

/-- Saving on an unwritable vault fails on both paths. -/
theorem saveMetadata_writeFail (v : Vault) (m : Metadata) (hw : v.writeOk = false) :
    saveMetadata v m = .error .storageUnavailable := by
  cases hf : v.file with
  | none => simp [saveMetadata, vaultCreate, adapterWrite, hf, hw]
  | some c => simp [saveMetadata, vaultCreate, adapterWrite, hf, hw]

/-- On an unwritable vault `updateLineTimestamp` surfaces an error and leaves
the vault untouched. -/
theorem updateLineTimestamp_writeFail (v : Vault) (rc : RenderCtx) (p : String)
    (n : Nat) (t : String) (hw : v.writeOk = false) :
    ∃ e, updateLineTimestamp v rc p n t = (v, .error e) := by
  cases hl : loadMetadata v with
  | error e => exact ⟨e, by simp [updateLineTimestamp, hl]⟩
  | ok m =>
    exact ⟨.storageUnavailable,
      by simp [updateLineTimestamp, hl, saveMetadata_writeFail _ _ hw]⟩

/-- Inversion: a successful `updateLineTimestamp` went through a successful
load and a successful save of the updated map. -/
theorem updateLineTimestamp_ok_inv (v : Vault) (rc : RenderCtx) (p : String)
    (n : Nat) (t : String) (v2 : Vault) (m2 : Metadata)
    (h : updateLineTimestamp v rc p n t = (v2, .ok m2)) :
    ∃ m, loadMetadata v = .ok m ∧ m2 = updateEntry m p n t
      ∧ saveMetadata v m2 = .ok v2 := by
  unfold updateLineTimestamp at h
  cases hl : loadMetadata v with
  | error e => rw [hl] at h; simp at h
  | ok m =>
    rw [hl] at h
    cases hs : saveMetadata v (updateEntry m p n t) with
    | error e => simp [hs] at h
    | ok v3 =>
      simp only [hs] at h
      cases ho : overlayTimestamps rc (updateEntry m p n t) with
      | error e => simp [ho] at h
      | ok os =>
        simp only [ho, Prod.mk.injEq, Except.ok.injEq] at h
        obtain ⟨h1, h2⟩ := h
        subst h1
        subst h2
        exact ⟨m, rfl, rfl, hs⟩

/-- On a readable, writable vault holding snapshot `m`, `updateLineTimestamp`
persists exactly the updated snapshot, whatever the overlay does. -/
theorem updateLineTimestamp_valid (v : Vault) (rc : RenderCtx) (p : String)
    (n : Nat) (t : String) (m : Metadata) (hr : v.readOk = true)
    (hf : v.file = some (stringifyMetadata m)) (hw : v.writeOk = true) :
    (updateLineTimestamp v rc p n t).1
      = { v with file := some (stringifyMetadata (updateEntry m p n t)) } := by
  simp only [updateLineTimestamp, loadMetadata_valid v m hr hf,
    saveMetadata_writeOk v (updateEntry m p n t) hw]
  cases overlayTimestamps rc (updateEntry m p n t) <;> simp

/-!
### Frame lemmas for the store mutation
-/

theorem lookupMeta_updateEntry_self (m : Metadata) (p : String) (n : Nat) (t : String) :
    lookupMeta (updateEntry m p n t) p
      = some (setLine ((lookupMeta m p).getD []) n t) := by
  induction m with
  | nil => simp [updateEntry, lookupMeta]
  | cons e rest ih =>
    obtain ⟨q, inner⟩ := e
    by_cases hq : q = p
    · subst hq
      simp [updateEntry, lookupMeta]
    · simp [updateEntry, lookupMeta, hq, ih]

theorem lookupMeta_updateEntry_other (m : Metadata) (p q : String) (n : Nat)
    (t : String) (hq : q ≠ p) :
    lookupMeta (updateEntry m p n t) q = lookupMeta m q := by
  induction m with
  | nil => simp [updateEntry, lookupMeta, Ne.symm hq]
  | cons e rest ih =>
    obtain ⟨a, inner⟩ := e
    by_cases ha : a = p
    · subst ha
      simp [updateEntry, lookupMeta, Ne.symm hq]
    · simp [updateEntry, lookupMeta, ha, ih]

theorem lookupLine_setLine_self (l : List (Nat × String)) (n : Nat) (t : String) :
    lookupLine (setLine l n t) n = some t := by
  induction l with
  | nil => simp [setLine, lookupLine]
  | cons e rest ih =>
    obtain ⟨k, v⟩ := e
    rcases Nat.lt_trichotomy n k with h | h | h
    · simp [setLine, lookupLine, h]
    · subst h
      simp [setLine, lookupLine]
    · have h1 : ¬ n < k := by omega
      have h2 : ¬ n = k := by omega
      have h3 : ¬ k = n := by omega
      simp [setLine, lookupLine, h1, h2, h3, ih]

theorem lookupLine_setLine_other (l : List (Nat × String)) (n k : Nat) (t : String)
    (hk : k ≠ n) : lookupLine (setLine l n t) k = lookupLine l k := by
  induction l with
  | nil => simp [setLine, lookupLine, Ne.symm hk]
  | cons e rest ih =>
    obtain ⟨a, v⟩ := e
    rcases Nat.lt_trichotomy n a with h | h | h
    · have h1 : ¬ n = k := Ne.symm hk
      simp [setLine, lookupLine, h, h1]
    · subst h
      have h1 : ¬ n = k := Ne.symm hk
      simp [setLine, lookupLine, h1]
    · have h1 : ¬ n < a := by omega
      have h2 : ¬ n = a := by omega
      simp [setLine, lookupLine, h1, h2, ih]

/-!
### Edge behavior of the Line Diff Engine
-/

theorem diffFuel_insert_all (ns : List String) : ∀ (fuel i j : Nat), ns.length ≤ fuel →
    diffFuel fuel i j [] ns = if ns = [] then [] else [EditOp.insert j ns] := by
  induction ns with
  | nil => intro fuel i j _; cases fuel <;> simp [diffFuel]
  | cons b bs ih =>
    intro fuel i j hf
    cases fuel with
    | zero => simp at hf
    | succ fuel =>
      rw [diffFuel, ih fuel i (j + 1) (by simp only [List.length_cons] at hf; omega)]
      cases bs with
      | nil => simp [pushInsert]
      | cons c cs => simp [pushInsert]

theorem diffFuel_delete_all (os : List String) : ∀ (fuel i j : Nat), os.length ≤ fuel →
    diffFuel fuel i j os [] = if os = [] then [] else [EditOp.delete i os] := by
  induction os with
  | nil => intro fuel i j _; cases fuel <;> simp [diffFuel]
  | cons a as ih =>
    intro fuel i j hf
    cases fuel with
    | zero => simp at hf
    | succ fuel =>
      rw [diffFuel, ih fuel (i + 1) j (by simp only [List.length_cons] at hf; omega)]
      cases as with
      | nil => simp [pushDelete]
      | cons c cs => simp [pushDelete]

theorem diffFuel_equal_all (ls : List String) : ∀ (fuel i j : Nat), ls.length ≤ fuel →
    diffFuel fuel i j ls ls = if ls = [] then [] else [EditOp.equal i j ls] := by
  induction ls with
  | nil => intro fuel i j _; cases fuel <;> simp [diffFuel]
  | cons a as ih =>
    intro fuel i j hf
    cases fuel with
    | zero => simp at hf
    | succ fuel =>
      rw [diffFuel]
      simp only [if_pos rfl]
      rw [ih fuel (i + 1) (j + 1) (by simp only [List.length_cons] at hf; omega)]
      cases as with
      | nil => simp [pushEqual]
      | cons c cs => simp [pushEqual]

/-!
### Gating and trace lemmas for the debounce behavior
-/

/-- With no active file, or with the flag set, the handler is a perfect
no-op: no store read, no store write, no state change, no error. -/
theorem handleEditorChange_gate (st : PluginState) (ev : ChangeEvent)
    (h : ev.activeFile = none ∨ st.updatedTimestamp = true) :
    handleEditorChange st ev = (st, .ok ()) := by
  rcases h with h | h
  · simp [handleEditorChange, h]
  · cases haf : ev.activeFile with
    | none => simp [handleEditorChange, haf]
    | some p => simp [handleEditorChange, haf, h]

theorem eventWrites_gate (st : PluginState) (ev : ChangeEvent)
    (h : ev.activeFile = none ∨ st.updatedTimestamp = true) :
    eventWrites st ev = 0 := by
  rcases h with h | h
  · simp [eventWrites, h]
  · cases haf : ev.activeFile with
    | none => simp [eventWrites, haf]
    | some p => simp [eventWrites, haf, h]

theorem eventWrites_le_one (st : PluginState) (ev : ChangeEvent) : eventWrites st ev ≤ 1 := by
  unfold eventWrites
  repeat' split
  all_goals omega

theorem traceWrites_flagged (evs : List ChangeEvent) : ∀ st : PluginState,
    st.updatedTimestamp = true → traceWrites st evs = 0 := by
  induction evs with
  | nil => intro st _; rfl
  | cons ev evs ih =>
    intro st h
    rw [traceWrites, handleEditorChange_gate st ev (Or.inr h),
      eventWrites_gate st ev (Or.inr h)]
    simpa using ih st h

theorem runTrace_flagged (evs : List ChangeEvent) : ∀ st : PluginState,
    st.updatedTimestamp = true → runTrace st evs = st := by
  induction evs with
  | nil => intro st _; rfl
  | cons ev evs ih =>
    intro st h
    rw [runTrace, handleEditorChange_gate st ev (Or.inr h)]
    exact ih st h

/-- A qualifying event whose processing succeeds sets the debounce flag. -/
theorem handleEditorChange_ok_flag (st : PluginState) (ev : ChangeEvent) (p : String)
    (haf : ev.activeFile = some p) (hfl : st.updatedTimestamp = false)
    (hok : (handleEditorChange st ev).2 = .ok ()) :
    (handleEditorChange st ev).1.updatedTimestamp = true := by
  simp only [handleEditorChange, haf, hfl, Bool.false_eq_true, if_false] at hok ⊢
  cases hu : updateLineTimestamp st.vault ev.rc p ev.cursorLine ev.now with
  | mk v2 r =>
    cases r with
    | error e => rw [hu] at hok; simp at hok
    | ok m2 => rfl

theorem traceWrites_clean_le_one (evs : List ChangeEvent) : ∀ st : PluginState,
    st.updatedTimestamp = false → traceOk st evs = true → traceWrites st evs ≤ 1 := by
  induction evs with
  | nil => intro st _ _; simp [traceWrites]
  | cons ev evs ih =>
    intro st hfl hok
    rw [traceWrites]
    cases haf : ev.activeFile with
    | none =>
      have hg := handleEditorChange_gate st ev (Or.inl haf)
      rw [eventWrites_gate st ev (Or.inl haf), hg]
      have hok2 : traceOk st evs = true := by
        rw [traceOk, hg] at hok
        exact hok
      simpa using ih st hfl hok2
    | some p =>
      cases hres : handleEditorChange st ev with
      | mk st2 r =>
        cases r with
        | error e =>
          rw [traceOk, hres] at hok
          simp at hok
        | ok u =>
          cases u
          have hflag2 : st2.updatedTimestamp = true := by
            have h := handleEditorChange_ok_flag st ev p haf hfl (by rw [hres])
            rwa [hres] at h
          have h0 : traceWrites st2 evs = 0 := traceWrites_flagged evs st2 hflag2
          have h1 := eventWrites_le_one st ev
          dsimp only
          omega

/-!
### The claims
-/

/-- A readable, writable vault holding the serialized snapshot `m`. -/
def vaultWith (m : Metadata) : Vault :=
  { file := some (stringifyMetadata m), readOk := true, writeOk := true }

/-- C1: the specification requires that inserting a line at position `k`
shifts every recorded timestamp at index `>= k` up by one and stamps only the
new line.  The code has no diff or remap: `handleEditorChange` stamps the
cursor line and leaves every other entry at its old index.  Evaluated at the
failing input (store `f.md -> (0, T1), (1, T1)` for content `a, b`; a new
line `x` inserted at position 0 giving content `x, a, b`; cursor line 0 at
time `T2`): the persisted map becomes `(0, T2), (1, T1)` with no entry at
index 2, where the claim requires `(0, T2), (1, T1), (2, T1)`. -/
theorem handleEditorChange_pure_shift_bug :
    (handleEditorChange
        { vault := { file := some (stringifyMetadata [("f.md", [(0, "T1"), (1, "T1")])]),
                     readOk := true, writeOk := true },
          updatedTimestamp := false, timerActive := false }
        { activeFile := some "f.md", cursorLine := 0, now := "T2",
          rc := { viewPresent := true, lineTexts := ["x", "a", "b"],
                  activeFileName := some "f.md" } }).1.vault.file
      = some (stringifyMetadata (updateEntry [("f.md", [(0, "T1"), (1, "T1")])] "f.md" 0 "T2"))
    ∧ updateEntry [("f.md", [(0, "T1"), (1, "T1")])] "f.md" 0 "T2"
      = [("f.md", [(0, "T2"), (1, "T1")])]
    ∧ [("f.md", [(0, "T2"), (1, "T1")])] ≠ [("f.md", [(0, "T2"), (1, "T1"), (2, "T1")])] :=
  ⟨rfl, rfl, by decide⟩

/-- C2: the specification requires that a change event whose new content
equals the old content leaves the entry map byte-identical.  The code never
consults the content at all: any `editor-change` event with an active file
(here with document content unchanged) stamps the cursor line, turning the
empty persisted map into a nonempty one. -/
theorem handleEditorChange_noop_not_identity :
    (handleEditorChange
        { vault := { file := some (stringifyMetadata ([] : Metadata)),
                     readOk := true, writeOk := true },
          updatedTimestamp := false, timerActive := false }
        { activeFile := some "f.md", cursorLine := 0, now := "T1",
          rc := { viewPresent := true, lineTexts := ["hello"],
                  activeFileName := some "f.md" } }).1.vault.file
      = some (stringifyMetadata [("f.md", [(0, "T1")])])
    ∧ stringifyMetadata [("f.md", [(0, "T1")])] ≠ stringifyMetadata ([] : Metadata) :=
  ⟨rfl, by decide⟩

/-- C3: the specification requires `load` to distinguish a missing store
(succeed with an empty snapshot) from an unreadable medium (fail).  In the
code `adapter.read` rejects on a missing file and `loadMetadata` does not
catch, so on a fresh vault (`file = none`, medium fully available) the load
fails instead of returning the empty snapshot; consequently
`updateLineTimestamp`, which loads before it saves, can never create the
store in the first place. -/
theorem loadMetadata_missing_store_bug :
    loadMetadata { file := none, readOk := true, writeOk := true }
      = Except.error JsErr.notFound
    ∧ (updateLineTimestamp { file := none, readOk := true, writeOk := true }
        { viewPresent := true, lineTexts := [], activeFileName := none }
        "f.md" 0 "T1").1.file = none
    ∧ (updateLineTimestamp { file := none, readOk := true, writeOk := true }
        { viewPresent := true, lineTexts := [], activeFileName := none }
        "f.md" 0 "T1").2 = Except.error JsErr.notFound :=
  ⟨rfl, rfl, rfl⟩

/-- C4: round-trip persistence.  For any valid snapshot `m` (distinct
document keys, ascending line keys) held by a readable, writable vault:
deserialization inverts serialization (`load(save(m)) = m`), loading yields
exactly `m`, and saving the loaded value writes back byte-for-byte identical
file content (`save(load())` is a no-op on the persisted bytes). -/
theorem saveMetadata_roundTrip (m : Metadata) (v : Vault)
    (_hwf : wfMetadata m = true) (hr : v.readOk = true) (hw : v.writeOk = true)
    (hf : v.file = some (stringifyMetadata m)) :
    parseMetadata (stringifyMetadata m) = some m
    ∧ loadMetadata v = .ok m
    ∧ saveMetadata v m = .ok { v with file := some (stringifyMetadata m) }
    ∧ ({ v with file := some (stringifyMetadata m) } : Vault).file = v.file := by
  refine ⟨parseMetadata_stringify m, loadMetadata_valid v m hr hf,
    saveMetadata_writeOk v m hw, ?_⟩
  rw [hf]

/-- Witness for C4 at the snapshot `a.md -> (0, T1), (3, T2)`. -/
theorem saveMetadata_roundTrip_witness :
    parseMetadata (stringifyMetadata [("a.md", [(0, "T1"), (3, "T2")])])
      = some [("a.md", [(0, "T1"), (3, "T2")])]
    ∧ loadMetadata (vaultWith [("a.md", [(0, "T1"), (3, "T2")])])
      = .ok [("a.md", [(0, "T1"), (3, "T2")])]
    ∧ saveMetadata (vaultWith [("a.md", [(0, "T1"), (3, "T2")])])
        [("a.md", [(0, "T1"), (3, "T2")])]
      = .ok (vaultWith [("a.md", [(0, "T1"), (3, "T2")])])
    ∧ (vaultWith [("a.md", [(0, "T1"), (3, "T2")])]).file
      = (vaultWith [("a.md", [(0, "T1"), (3, "T2")])]).file :=
  saveMetadata_roundTrip [("a.md", [(0, "T1"), (3, "T2")])]
    (vaultWith [("a.md", [(0, "T1"), (3, "T2")])]) (by decide) rfl rfl rfl

/-- C5: the specification requires the per-line timestamp read accessor to
return an empty mapping, not an error, for a document with no recorded
history.  The code performs the unguarded access `timestamps[fileName][i]`,
so with any view line present and a file absent from the store the overlay
dereferences `undefined` and throws a `TypeError`. -/
theorem overlayTimestamps_missing_doc_bug :
    overlayTimestamps
        { viewPresent := true, lineTexts := ["hello"], activeFileName := some "f.md" }
        ([] : Metadata)
      = Except.error JsErr.typeError := rfl

/-- C6 (counterexample): at `oldLines = newLines = []` the three clauses of
the claim contradict one another — a single total function cannot return both
a one-element insert script and a one-element equal script on the same input —
and the computed script is in fact empty, so the clause instances at the
empty input are false. -/
theorem computeEditScript_nil_nil :
    computeEditScript ([] : List String) ([] : List String) = ([] : List EditOp)
    ∧ (computeEditScript ([] : List String) ([] : List String)).length ≠ 1 :=
  ⟨rfl, by decide⟩

/-- C6 (amended): for nonempty `newLines`, diffing from empty content is a
single insert covering all of `newLines`; for nonempty `oldLines`, diffing to
empty content is a single delete covering all of `oldLines`; for nonempty
`lines`, diffing identical content is a single equal run (on empty input the
script is empty). -/
theorem computeEditScript_edges (oldLines newLines lines : List String)
    (h1 : newLines ≠ []) (h2 : oldLines ≠ []) (h3 : lines ≠ []) :
    computeEditScript [] newLines = [EditOp.insert 0 newLines]
    ∧ computeEditScript oldLines [] = [EditOp.delete 0 oldLines]
    ∧ computeEditScript lines lines = [EditOp.equal 0 0 lines] := by
  refine ⟨?_, ?_, ?_⟩
  · rw [computeEditScript, diffFuel_insert_all newLines _ 0 0 (by simp)]
    simp [h1]
  · rw [computeEditScript, diffFuel_delete_all oldLines _ 0 0 (by simp)]
    simp [h2]
  · rw [computeEditScript, diffFuel_equal_all lines _ 0 0 (by omega)]
    simp [h3]

/-- Witness for the amended C6 at singleton inputs. -/
theorem computeEditScript_edges_witness :
    computeEditScript [] ["a"] = [EditOp.insert 0 ["a"]]
    ∧ computeEditScript ["b"] [] = [EditOp.delete 0 ["b"]]
    ∧ computeEditScript ["c"] ["c"] = [EditOp.equal 0 0 ["c"]] :=
  computeEditScript_edges ["b"] ["a"] ["c"] (by decide) (by decide) (by decide)

/-- A state whose store is empty but fully available, with the flag clear. -/
def stIdle : PluginState :=
  { vault := vaultWith [], updatedTimestamp := false, timerActive := false }

/-- An event on the file `notes/f.md` whose overlay is doomed: the store gets
keyed by the path `notes/f.md` while the overlay looks up the name `f.md`, so
the overlay throws right after the save succeeded. -/
def evOverlayThrow : ChangeEvent :=
  { activeFile := some "notes/f.md", cursorLine := 0, now := "T1",
    rc := { viewPresent := true, lineTexts := ["hi"], activeFileName := some "f.md" } }

/-- An event on the root file `f.md` whose whole pipeline succeeds: path and
name coincide, a markdown view is present, and the view has a nonempty line. -/
def evGood : ChangeEvent :=
  { activeFile := some "f.md", cursorLine := 0, now := "T1",
    rc := { viewPresent := true, lineTexts := ["hi"], activeFileName := some "f.md" } }

/-- C7 (counterexample): the store mutation is not atomic with the flag
advance.  Processing `evOverlayThrow` from `stIdle` persists the stamped map,
yet the thrown overlay `TypeError` skips `this.updatedTimestamp = true`, so
the mutation commits while the state does not advance. -/
theorem handleEditorChange_commit_without_advance :
    (handleEditorChange stIdle evOverlayThrow).1.vault.file
      = some (stringifyMetadata [("notes/f.md", [(0, "T1")])])
    ∧ (handleEditorChange stIdle evOverlayThrow).1.updatedTimestamp = false
    ∧ (handleEditorChange stIdle evOverlayThrow).2 = Except.error JsErr.typeError :=
  ⟨rfl, rfl, rfl⟩

/-- C7 (amended): when persistence fails the change is not silently dropped
and the baseline does not advance — the handler surfaces the error and
returns the state unchanged, so the next event retries the same update — and
in the other direction the flag advances only after a successful persist of
exactly the recorded update.  (Full two-way atomicity fails: a post-persist
rendering error commits the mutation without the advance, see the
counterexample.) -/
theorem handleEditorChange_persist_atomicity :
    (∀ (st : PluginState) (ev : ChangeEvent) (p : String),
        ev.activeFile = some p → st.updatedTimestamp = false →
        st.vault.writeOk = false →
        ∃ e, handleEditorChange st ev = (st, Except.error e))
    ∧ (∀ (st : PluginState) (ev : ChangeEvent),
        st.updatedTimestamp = false →
        (handleEditorChange st ev).1.updatedTimestamp = true →
        ∃ (p : String) (m : Metadata),
          ev.activeFile = some p
          ∧ loadMetadata st.vault = Except.ok m
          ∧ saveMetadata st.vault (updateEntry m p ev.cursorLine ev.now)
              = Except.ok (handleEditorChange st ev).1.vault) := by
  constructor
  · intro st ev p h1 h2 h3
    obtain ⟨e, he⟩ := updateLineTimestamp_writeFail st.vault ev.rc p ev.cursorLine ev.now h3
    obtain ⟨sv, sf, stm⟩ := st
    dsimp only at h2 h3 he
    subst h2
    exact ⟨e, by simp [handleEditorChange, h1, he]⟩
  · intro st ev h2 hadv
    cases haf : ev.activeFile with
    | none =>
      rw [handleEditorChange_gate st ev (Or.inl haf)] at hadv
      have hx : st.updatedTimestamp = true := hadv
      rw [h2] at hx
      exact absurd hx (by simp)
    | some p =>
      have hunfold : handleEditorChange st ev
          = match updateLineTimestamp st.vault ev.rc p ev.cursorLine ev.now with
            | (v2, .error e) => ({ st with vault := v2 }, .error e)
            | (v2, .ok _) =>
              ({ vault := v2, updatedTimestamp := true, timerActive := true }, .ok ()) := by
        simp [handleEditorChange, haf, h2]
      cases hu : updateLineTimestamp st.vault ev.rc p ev.cursorLine ev.now with
      | mk v2 r =>
        cases r with
        | error e =>
          rw [hunfold, hu] at hadv
          have hx : st.updatedTimestamp = true := hadv
          rw [h2] at hx
          exact absurd hx (by simp)
        | ok m2 =>
          obtain ⟨m, hl, hm2, hs⟩ :=
            updateLineTimestamp_ok_inv st.vault ev.rc p ev.cursorLine ev.now v2 m2 hu
          refine ⟨p, m, rfl, hl, ?_⟩
          rw [hunfold, hu, ← hm2]
          exact hs

/-- Witness for the amended C7: an unwritable vault surfaces an error with no
state change, and a fully successful update advanced the flag only through a
successful save. -/
theorem handleEditorChange_persist_atomicity_witness :
    (∃ e, handleEditorChange
        { vault := { file := none, readOk := true, writeOk := false },
          updatedTimestamp := false, timerActive := false } evGood
      = ({ vault := { file := none, readOk := true, writeOk := false },
           updatedTimestamp := false, timerActive := false }, Except.error e))
    ∧ (∃ (p : String) (m : Metadata),
        evGood.activeFile = some p
        ∧ loadMetadata stIdle.vault = Except.ok m
        ∧ saveMetadata stIdle.vault (updateEntry m p evGood.cursorLine evGood.now)
            = Except.ok (handleEditorChange stIdle evGood).1.vault) :=
  ⟨handleEditorChange_persist_atomicity.1
      { vault := { file := none, readOk := true, writeOk := false },
        updatedTimestamp := false, timerActive := false } evGood "f.md" rfl rfl rfl,
   handleEditorChange_persist_atomicity.2 stIdle evGood rfl rfl⟩

/-- C8: the store operations duplicated across the two source copies —
`loadMetadata`, `saveMetadata` and `updateLineTimestamp` of `src/main.ts` and
of `src/src/main.ts` — are extensionally equivalent: on every input and every
prior vault state they return the same result and leave the same vault
state. -/
theorem srcOverlayLoop_eq (name : Option String) (ts : Metadata) :
    ∀ (ls : List String) (i : Nat),
      SrcMain.overlayLoop name ts ls i = overlayLoop name ts ls i := by
  intro ls
  induction ls with
  | nil => intro i; rfl
  | cons text rest ih =>
    intro i
    rw [SrcMain.overlayLoop.eq_def, overlayLoop.eq_def]
    simp only [ih]

theorem srcOverlayTimestamps_eq (rc : RenderCtx) (ts : Metadata) :
    SrcMain.overlayTimestamps rc ts = overlayTimestamps rc ts := by
  rw [SrcMain.overlayTimestamps, overlayTimestamps, srcOverlayLoop_eq]

/-- C8: the store operations duplicated across the two source copies —
`loadMetadata`, `saveMetadata` and `updateLineTimestamp` of `src/main.ts` and
of `src/src/main.ts` — are extensionally equivalent: on every input and every
prior vault state they return the same result and leave the same vault
state. -/
theorem srcCopies_equivalent (v : Vault) (m : Metadata) (rc : RenderCtx)
    (p : String) (n : Nat) (t : String) :
    SrcMain.loadMetadata v = loadMetadata v
    ∧ SrcMain.saveMetadata v m = saveMetadata v m
    ∧ SrcMain.updateLineTimestamp v rc p n t = updateLineTimestamp v rc p n t := by
  refine ⟨rfl, rfl, ?_⟩
  rw [SrcMain.updateLineTimestamp, updateLineTimestamp]
  simp only [show SrcMain.loadMetadata = loadMetadata from rfl,
    show SrcMain.saveMetadata = saveMetadata from rfl, srcOverlayTimestamps_eq]

/-- C9: the frame property of `updateLineTimestamp(p, n, t)` on a readable,
writable vault holding snapshot `m`: the persisted store becomes exactly the
serialization of `m` with the single entry `(p, n)` set to `t` (creating the
entry map of `p` if absent); the entry map of every other document and every
other line entry of `p` are unchanged. -/
theorem updateLineTimestamp_frame (v : Vault) (rc : RenderCtx) (p : String) (n : Nat)
    (t : String) (m : Metadata) (hr : v.readOk = true)
    (hf : v.file = some (stringifyMetadata m)) (hw : v.writeOk = true) :
    (updateLineTimestamp v rc p n t).1.file
      = some (stringifyMetadata (updateEntry m p n t))
    ∧ lookupMeta (updateEntry m p n t) p
      = some (setLine ((lookupMeta m p).getD []) n t)
    ∧ (∀ q, q ≠ p → lookupMeta (updateEntry m p n t) q = lookupMeta m q)
    ∧ lookupLine (setLine ((lookupMeta m p).getD []) n t) n = some t
    ∧ (∀ k, k ≠ n → lookupLine (setLine ((lookupMeta m p).getD []) n t) k
        = lookupLine ((lookupMeta m p).getD []) k) := by
  refine ⟨?_, lookupMeta_updateEntry_self m p n t,
    fun q hq => lookupMeta_updateEntry_other m p q n t hq,
    lookupLine_setLine_self _ n t,
    fun k hk => lookupLine_setLine_other _ n k t hk⟩
  rw [updateLineTimestamp_valid v rc p n t m hr hf hw]

/-- Witness for C9: store `a.md -> (0, T0), (2, T0)`, update of `a.md` line 1
at `T1`, with an overlay context that throws (no view), showing the persisted
frame effect is independent of the overlay outcome. -/
theorem updateLineTimestamp_frame_witness :
    (updateLineTimestamp (vaultWith [("a.md", [(0, "T0"), (2, "T0")])])
        { viewPresent := false, lineTexts := [], activeFileName := none }
        "a.md" 1 "T1").1.file
      = some (stringifyMetadata (updateEntry [("a.md", [(0, "T0"), (2, "T0")])] "a.md" 1 "T1"))
    ∧ lookupMeta (updateEntry [("a.md", [(0, "T0"), (2, "T0")])] "a.md" 1 "T1") "a.md"
      = some (setLine ((lookupMeta [("a.md", [(0, "T0"), (2, "T0")])] "a.md").getD []) 1 "T1")
    ∧ (∀ q, q ≠ "a.md" →
        lookupMeta (updateEntry [("a.md", [(0, "T0"), (2, "T0")])] "a.md" 1 "T1") q
          = lookupMeta [("a.md", [(0, "T0"), (2, "T0")])] q)
    ∧ lookupLine (setLine ((lookupMeta [("a.md", [(0, "T0"), (2, "T0")])] "a.md").getD [])
        1 "T1") 1 = some "T1"
    ∧ (∀ k, k ≠ 1 →
        lookupLine (setLine ((lookupMeta [("a.md", [(0, "T0"), (2, "T0")])] "a.md").getD [])
          1 "T1") k
          = lookupLine ((lookupMeta [("a.md", [(0, "T0"), (2, "T0")])] "a.md").getD []) k) :=
  updateLineTimestamp_frame (vaultWith [("a.md", [(0, "T0"), (2, "T0")])])
    { viewPresent := false, lineTexts := [], activeFileName := none }
    "a.md" 1 "T1" [("a.md", [(0, "T0"), (2, "T0")])] rfl rfl rfl

/-- C10 (counterexample): two consecutive qualifying change events with no
timer expiry in between (no timer is even started, `timerActive` stays false)
both perform a persisted write: the first update throws after its save — the
overlay looks up the file name while the store is keyed by the path — so the
flag is never set and the second event is not gated. -/
theorem traceWrites_two_without_expiry :
    traceWrites stIdle [evOverlayThrow, evOverlayThrow] = 2
    ∧ stIdle.updatedTimestamp = false
    ∧ (runTrace stIdle [evOverlayThrow, evOverlayThrow]).timerActive = false :=
  ⟨rfl, rfl, rfl⟩

/-- C10 (amended): `handleEditorChange` performs no store read or mutation —
and no state change — when there is no active file or when the flag is set;
and provided every event processed in the window completes without a thrown
error, at most one timestamp write occurs per debounce window, the write of
the first qualifying event, after which the remaining events of the window
leave the state untouched. -/
theorem handleEditorChange_debounce :
    (∀ (st : PluginState) (ev : ChangeEvent),
        ev.activeFile = none ∨ st.updatedTimestamp = true →
        handleEditorChange st ev = (st, Except.ok ()) ∧ eventWrites st ev = 0)
    ∧ (∀ (st : PluginState) (evs : List ChangeEvent),
        st.updatedTimestamp = false → traceOk st evs = true →
        traceWrites st evs ≤ 1)
    ∧ (∀ (st : PluginState) (ev : ChangeEvent) (evs : List ChangeEvent) (p : String),
        st.updatedTimestamp = false → ev.activeFile = some p →
        (handleEditorChange st ev).2 = Except.ok () →
        runTrace st (ev :: evs) = (handleEditorChange st ev).1) := by
  refine ⟨fun st ev h => ⟨handleEditorChange_gate st ev h, eventWrites_gate st ev h⟩,
    fun st evs h1 h2 => traceWrites_clean_le_one evs st h1 h2, ?_⟩
  intro st ev evs p h1 h2 h3
  rw [runTrace]
  exact runTrace_flagged evs _ (handleEditorChange_ok_flag st ev p h2 h1 h3)

/-- Witness for the amended C10: a gated event is a no-op with zero writes; a
clean two-event burst performs at most one write; and after a successful
first qualifying event the rest of the window changes nothing. -/
theorem handleEditorChange_debounce_witness :
    (handleEditorChange { vault := vaultWith [], updatedTimestamp := true, timerActive := true }
        evGood
      = ({ vault := vaultWith [], updatedTimestamp := true, timerActive := true },
          Except.ok ())
      ∧ eventWrites { vault := vaultWith [], updatedTimestamp := true, timerActive := true }
          evGood = 0)
    ∧ traceWrites stIdle [evGood, evGood] ≤ 1
    ∧ runTrace stIdle [evGood] = (handleEditorChange stIdle evGood).1 :=
  ⟨handleEditorChange_debounce.1
      { vault := vaultWith [], updatedTimestamp := true, timerActive := true } evGood
      (Or.inr rfl),
   handleEditorChange_debounce.2.1 stIdle [evGood, evGood] rfl rfl,
   handleEditorChange_debounce.2.2 stIdle evGood [] "f.md" rfl rfl rfl⟩
